import Mathlib

/-!
# Verification of the RainFall moisture engine

Shallow embedding of `rain_app.py` and `Version 2/migrate_add_moisture.py`.

Embedding conventions:

* Python `float` values are embedded as exact rationals (`ℚ`): the engine's
  arithmetic is `max`/`min`/`+`/`-`/`/` on values the specification treats as
  real numbers.  The `f"{m:.2f}"` display formatting applied when a moisture
  value is stored back into a record is treated as the identity on the stored
  value (the store holds the computed rational; two-fixed-digit rendering is
  a persistence concern).
* A raw textual field that the code parses with `float(...)`, falling back on
  `ValueError`, is embedded as its parse result `Option ℚ`: `none` covers both
  a blank field and an unparseable one (e.g. `"abc"`).
* A `Date` string is embedded by its parse result `RawDate`: `RawDate.valid d`
  for a canonical `YYYY-MM-DD` string denoting the day with proleptic ordinal
  `d` (as in Python's `date.toordinal()`, so genuine dates have `d ≥ 1`), and
  `RawDate.invalid` for an unparseable string.  The sort key fallback
  `date.min` has ordinal `1`.
* The `Watered` column holds `"Yes"`/`"No"`; the code tests `== "Yes"`, so the
  field is embedded as a `Bool`.
* `_recompute_from` in the source ends in an unreachable duplicate
  moisture-balance computation (lines 205-295) whose return value every caller
  discards and which performs no mutation of the records; the embedding
  models only the state transformation on the record list.
-/

inductive RawDate where
  | valid (d : ℕ)
  | invalid
deriving DecidableEq

/-- A row of the rainfall log (`rain_app.py` `_load_data` record shape):
`Date`, `Rain_mm`, `BOM_mm`, `Notes`, `Watered`, `Moisture`. -/
structure DayRec where
  date : RawDate
  rain_mm : Option ℚ
  bom_mm : Option ℚ
  notes : String
  watered : Bool
  moisture : Option ℚ
deriving DecidableEq

/-- Engine-level settings as seen by `self.settings.get(...)` followed by
`float(...)` / `int(...)`: each field is the numeric parse result of the
stored value, `none` when the key is missing or its value unparseable. -/
structure Settings where
  threshold_mm : Option ℚ
  period_days : Option ℤ
deriving DecidableEq

/-- `float(self.settings.get("threshold_mm", 20.0))` with `ValueError`
falling back to `20.0` (`_compute_daily_moisture`, lines 138-141). -/
def thresholdOf (s : Settings) : ℚ :=
  s.threshold_mm.getD 20

/-- `int(self.settings.get("period_days", 5))` with `ValueError` falling back
to `5`, and a non-positive value replaced by `5` (lines 143-148). -/
def periodOf (s : Settings) : ℤ :=
  let p := s.period_days.getD 5
  if p ≤ 0 then 5 else p

/-- `decay = threshold / period_days` (line 150). -/
def decayOf (s : Settings) : ℚ :=
  thresholdOf s / (periodOf s : ℚ)

/-- `_effective_mm` (lines 103-129): use `Rain_mm` if it parses and is `≥ 0`,
else `BOM_mm` if it parses and is `≥ 0`, else `None`. -/
def effective_mm (r : DayRec) : Option ℚ :=
  match r.rain_mm with
  | some v =>
    if 0 ≤ v then some v
    else
      match r.bom_mm with
      | some w => if 0 ≤ w then some w else none
      | none => none
  | none =>
    match r.bom_mm with
    | some w => if 0 ≤ w then some w else none
    | none => none

/-- `_compute_daily_moisture` (lines 131-163): apply decay, add effective
rainfall when present, cap at threshold. -/
def compute_daily_moisture (s : Settings) (prev_moisture : ℚ) (eff_rain : Option ℚ) : ℚ :=
  let threshold := thresholdOf s
  let decay := decayOf s
  let m := max 0 (prev_moisture - decay)
  let m2 := m + eff_rain.getD 0
  if m2 > threshold then threshold else m2

/-- One iteration of the `_recompute_from` forward loop (lines 193-203):
watered rows reset to the threshold, others go through
`_compute_daily_moisture` with the row's effective rainfall. -/
def recomputeStep (s : Settings) (prev_moisture : ℚ) (r : DayRec) : ℚ :=
  if r.watered then thresholdOf s
  else compute_daily_moisture s prev_moisture (effective_mm r)

/-- The `_recompute_from` forward walk: overwrite each visited row's
`Moisture` and feed the computed value forward as `prev_moisture`. -/
def recomputeChain (s : Settings) (prev_moisture : ℚ) : List DayRec → List DayRec
  | [] => []
  | r :: rs =>
    let m := recomputeStep s prev_moisture r
    { r with moisture := some m } :: recomputeChain s m rs

/-- Ordinal of a parsed date, an unparseable one falling back to `date.min`
(ordinal 1), exactly the key of `_sort_records` (lines 94-101). -/
def dateOrd : RawDate → ℕ
  | RawDate.valid d => d
  | RawDate.invalid => 1

/-- Sort key of `_sort_records` applied to a record. -/
def dateKey (r : DayRec) : ℕ :=
  dateOrd r.date

def recLE (a b : DayRec) : Prop := dateKey a ≤ dateKey b

instance : DecidableRel recLE := fun a b => Nat.decLe (dateKey a) (dateKey b)

instance : IsTotal DayRec recLE := ⟨fun a b => Nat.le_total (dateKey a) (dateKey b)⟩

instance : IsTrans DayRec recLE := ⟨fun _ _ _ h h' => Nat.le_trans h h'⟩

/-- `_sort_records`: stable sort of the records by parsed date. -/
def sort_records (l : List DayRec) : List DayRec :=
  List.insertionSort recLE l

/-- `_recompute_from` (lines 165-203): sort, locate the start date, seed
`prev_moisture` from the stored `Moisture` of the preceding row (`0.0` when
there is none or it does not parse), then recompute forward to the end. -/
def recompute_from (s : Settings) (start_date : ℕ) (l : List DayRec) : List DayRec :=
  let l2 := sort_records l
  match l2.findIdx? (fun r => decide (r.date = RawDate.valid start_date)) with
  | none => l2
  | some i =>
    let prev : ℚ :=
      if i = 0 then 0
      else (((l2.get? (i - 1)).bind DayRec.moisture).getD 0)
    l2.take i ++ recomputeChain s prev (l2.drop i)

/-- `_on_delete` (lines 541-551): drop every record whose `Date` equals the
selected one; no recompute of later records is performed. -/
def on_delete (l : List DayRec) (d : RawDate) : List DayRec :=
  l.filter (fun r => decide (r.date ≠ d))

/-- The upsert loop of `_on_add_update` (lines 511-531): overwrite the first
record with the submitted date, else append the new record. -/
def upsert : List DayRec → DayRec → List DayRec
  | [], n => [n]
  | r :: rs, n => if r.date = n.date then n :: rs else r :: upsert rs n

/-- `_on_add_update` (lines 428-539), after the UI parse step: `rain` and
`bom` are the submitted fields (`none` = blank; an unparseable non-blank
field is rejected before this point), `today` guards future dates.  Returns
`none` when the submission is rejected by validation, otherwise the record
list after upsert, forward recompute and the trailing re-sort. -/
def on_add_update (s : Settings) (today : ℕ) (l : List DayRec) (d : ℕ)
    (rain bom : Option ℚ) (the_notes : String) (watered_flag : Bool) :
    Option (List DayRec) :=
  if today < d then none
  else
    let valid_rain : Bool := match rain with | some q => decide (0 ≤ q) | none => false
    let valid_bom : Bool := match bom with | some q => decide (0 ≤ q) | none => false
    if !valid_rain && !valid_bom then none
    else
      let prev : ℚ :=
        ((l.find? (fun r => decide (r.date = RawDate.valid (d - 1)))).bind
          DayRec.moisture).getD 0
      let eff_today : Option ℚ := match rain with | some q => some q | none => bom
      let moisture_today : ℚ :=
        if watered_flag then thresholdOf s
        else compute_daily_moisture s prev eff_today
      let newrec : DayRec :=
        ⟨RawDate.valid d, rain, bom, the_notes, watered_flag, some moisture_today⟩
      some (sort_records (recompute_from s d (upsert l newrec)))

/-- The parseable dates appearing in the store, in record order
(`_compute_missing_dates` lines 711-717). -/
def record_dates (l : List DayRec) : List ℕ :=
  l.filterMap (fun r =>
    match r.date with
    | RawDate.valid d => some d
    | RawDate.invalid => none)

/-- `_compute_missing_dates` (lines 706-730): the calendar days between the
minimum and maximum parseable recorded date that have no record.
`sorted(set(dates))` is embedded as `insertionSort` of `dedup` (same
elements, ascending and duplicate-free). -/
def compute_missing_dates (l : List DayRec) : List ℕ :=
  if l = [] then []
  else
    let dates0 := record_dates l
    if dates0 = [] then []
    else
      let dates := List.insertionSort (· ≤ ·) dates0.dedup
      let d0 := dates.headD 0
      let dN := dates.getLastD 0
      (List.range' d0 (dN + 1 - d0)).filter (fun x => decide (x ∉ dates))

/-! ## Settings loading (`load_settings`, lines 13-35) -/

/-- A JSON value stored under one of the settings keys, or appearing as an
element of a top-level JSON array; nested arrays and objects collapse to
`other` (they can never equal a key name in a membership test). -/
inductive JVal where
  | num (q : ℚ)
  | str (s : String)
  | other
deriving DecidableEq

/-- The settings mapping restricted to the three keys the defaults carry;
`none` means the key is absent from the loaded file (extra keys, which the
merge loop never touches, are outside the model). -/
structure SettingsJson where
  data_file : Option JVal
  threshold_mm : Option JVal
  period_days : Option JVal
deriving DecidableEq

/-- A successfully parsed top-level JSON document: an object, or one of the
non-object shapes `json.load` also returns (array, string, number, boolean,
`null`), which the merge loop then receives unguarded. -/
inductive JTop where
  | obj (m : SettingsJson)
  | arr (xs : List JVal)
  | str (s : String)
  | num (q : ℚ)
  | boolean (b : Bool)
  | null
deriving DecidableEq

/-- What reading the settings file yields: a missing file, content on which
`json.load` raises (the bare `except` at line 27 covers exactly this), or a
parsed JSON document of any shape. -/
inductive SettingsSource where
  | missing
  | unparseable
  | parsed (c : JTop)

/-- The uncaught exception `load_settings` can raise: the `TypeError` from
`key not in loaded` / `loaded[key] = value` (lines 31-33) when the parsed
content is not an object. -/
inductive LoadError where
  | typeError
deriving DecidableEq

def defaultSettings : SettingsJson :=
  ⟨some (JVal.str "rain_data.csv"), some (JVal.num 10), some (JVal.num 7)⟩

/-- The merge loop of lines 30-33 on a parsed JSON object: each key missing
from the loaded mapping is filled in from the defaults, present keys keep
their loaded values. -/
def merge_defaults (m : SettingsJson) : SettingsJson :=
  { data_file := match m.data_file with
      | some v => some v
      | none => defaultSettings.data_file
    threshold_mm := match m.threshold_mm with
      | some v => some v
      | none => defaultSettings.threshold_mm
    period_days := match m.period_days with
      | some v => some v
      | none => defaultSettings.period_days }

/-- Character-list comparison from the front, the base of the substring
test below. -/
def leadsWith : List Char → List Char → Bool
  | [], _ => true
  | _ :: _, [] => false
  | c :: cs, d :: ds => c == d && leadsWith cs ds

/-- Scan for an occurrence of `pat` starting at any position. -/
def hasRun (pat : List Char) : List Char → Bool
  | [] => leadsWith pat []
  | d :: ds => leadsWith pat (d :: ds) || hasRun pat ds

/-- Python's `pat in s` substring test on strings. -/
def pyInStr (pat s : String) : Bool :=
  hasRun pat.toList s.toList

/-- `load_settings` (lines 13-35): defaults on a missing file or when
`json.load` raises; on a parsed JSON object, the merge loop overlays the
defaults under the loaded keys and returns the result; on parsed non-object
content the merge loop runs unguarded — `key not in loaded` raises
`TypeError` outright on numbers, booleans and `null`, while on arrays and
strings the loop raises `TypeError` at the first default key not contained
in the content (element membership for arrays, substring containment for
strings) and otherwise never assigns, returning the non-object content
unmerged. -/
def load_settings : SettingsSource → Except LoadError JTop
  | SettingsSource.missing => Except.ok (JTop.obj defaultSettings)
  | SettingsSource.unparseable => Except.ok (JTop.obj defaultSettings)
  | SettingsSource.parsed (JTop.obj m) => Except.ok (JTop.obj (merge_defaults m))
  | SettingsSource.parsed (JTop.arr xs) =>
    if JVal.str "data_file" ∈ xs ∧ JVal.str "threshold_mm" ∈ xs ∧
        JVal.str "period_days" ∈ xs
    then Except.ok (JTop.arr xs)
    else Except.error LoadError.typeError
  | SettingsSource.parsed (JTop.str s) =>
    if pyInStr "data_file" s && pyInStr "threshold_mm" s && pyInStr "period_days" s
    then Except.ok (JTop.str s)
    else Except.error LoadError.typeError
  | SettingsSource.parsed (JTop.num _) => Except.error LoadError.typeError
  | SettingsSource.parsed (JTop.boolean _) => Except.error LoadError.typeError
  | SettingsSource.parsed JTop.null => Except.error LoadError.typeError

/-! ## Migration tool (`Version 2/migrate_add_moisture.py`) -/

def migThreshold : ℚ := 10

def migPeriodDays : ℕ := 7

def migDecay : ℚ := migThreshold / (migPeriodDays : ℚ)

/-- `effective_mm` of the migration tool (lines 17-27): first of `Rain_mm`,
`BOM_mm` that parses and is `≥ 0`, else `0.0`. -/
def migEffective_mm (r : DayRec) : ℚ :=
  match r.rain_mm with
  | some v =>
    if 0 ≤ v then v
    else
      match r.bom_mm with
      | some w => if 0 ≤ w then w else 0
      | none => 0
  | none =>
    match r.bom_mm with
    | some w => if 0 ≤ w then w else 0
    | none => 0

/-- One iteration of the `migrate` loop (lines 47-67): watered rows reset to
`THRESHOLD`, others decay, gain the effective rainfall and are capped. -/
def migrateStep (prev_moisture : ℚ) (r : DayRec) : ℚ :=
  if r.watered then migThreshold
  else
    let m := max 0 (prev_moisture - migDecay) + migEffective_mm r
    if m > migThreshold then migThreshold else m

/-- The `migrate` loop carrying `prev_moisture`; `strptime` on line 48 raises
on an unparseable date, aborting the whole run (`none`). -/
def migrateGo (prev_moisture : ℚ) : List DayRec → Option (List DayRec)
  | [] => some []
  | r :: rs =>
    match r.date with
    | RawDate.invalid => none
    | RawDate.valid _ =>
      let m := migrateStep prev_moisture r
      (migrateGo m rs).map (fun out => { r with moisture := some m } :: out)

/-- `migrate` (lines 42-69): full pass starting from `prev_moisture = 0.0`. -/
def migrate (l : List DayRec) : Option (List DayRec) :=
  migrateGo 0 l

/-- The settings the migration tool hard-codes (`THRESHOLD = 10.0`,
`PERIOD_DAYS = 7`). -/
def migSettings : Settings :=
  ⟨some 10, some 7⟩

/-! ## Basic facts about the engine primitives -/

/-- The resolver never produces a negative effective rainfall. -/
theorem effective_mm_nonneg (r : DayRec) (v : ℚ) (h : effective_mm r = some v) :
    0 ≤ v := by
  rcases hr : r.rain_mm with _ | q
  · rcases hb : r.bom_mm with _ | w
    · simp [effective_mm, hr, hb] at h
    · simp only [effective_mm, hr, hb] at h
      split_ifs at h with hw <;> simp_all
  · simp only [effective_mm, hr] at h
    split_ifs at h with hq
    · simp_all
    · rcases hb : r.bom_mm with _ | w
      · simp [hb] at h
      · simp only [hb] at h
        split_ifs at h with hw <;> simp_all

/-- The non-watered daily formula stays within `[0, threshold]` whenever the
threshold is positive and the effective rainfall is absent or non-negative. -/
theorem compute_daily_moisture_bounds (s : Settings) (hthr : 0 < thresholdOf s)
    (prev : ℚ) (eff : Option ℚ) (heff : eff = none ∨ ∃ q, eff = some q ∧ 0 ≤ q) :
    0 ≤ compute_daily_moisture s prev eff ∧
      compute_daily_moisture s prev eff ≤ thresholdOf s := by
  have hnn : 0 ≤ eff.getD 0 := by
    rcases heff with h | ⟨q, hq, hq0⟩
    · simp [h]
    · simpa [hq] using hq0
  simp only [compute_daily_moisture]
  split_ifs with hcap
  · exact ⟨le_of_lt hthr, le_refl _⟩
  · refine ⟨add_nonneg (le_max_left 0 _) hnn, not_lt.mp hcap⟩

/-- Every record emitted by the recompute walk carries a moisture value in
`[0, threshold]`. -/
theorem recomputeChain_bounds (s : Settings) (hthr : 0 < thresholdOf s) :
    ∀ (prev : ℚ) (l : List DayRec), ∀ r ∈ recomputeChain s prev l,
      ∃ m, r.moisture = some m ∧ 0 ≤ m ∧ m ≤ thresholdOf s := by
  intro prev l
  induction l generalizing prev with
  | nil => intro r hr; exact absurd hr (by simp [recomputeChain])
  | cons x xs ih =>
    intro r hr
    rcases (by simpa [recomputeChain] using hr) with rfl | hr'
    · refine ⟨recomputeStep s prev x, rfl, ?_⟩
      simp only [recomputeStep]
      split_ifs with hw
      · exact ⟨le_of_lt hthr, le_refl _⟩
      · refine compute_daily_moisture_bounds s hthr prev (effective_mm x) ?_
        rcases he : effective_mm x with _ | v
        · exact Or.inl rfl
        · exact Or.inr ⟨v, rfl, effective_mm_nonneg x v he⟩
    · exact ih _ r hr'

/-- C1: with positive settings, every moisture value the recompute
coordinator writes lies in the closed interval `[0, threshold]`: the
sanitised period is positive, the non-watered branch
`_compute_daily_moisture` returns a value in `[0, threshold]` whenever the
effective rainfall is `None` or non-negative, the watered branch writes
exactly the threshold, and hence every record the forward walk emits
carries a moisture value in `[0, threshold]`. -/
theorem moisture_invariant (s : Settings) (hthr : 0 < thresholdOf s) :
    (0 < periodOf s) ∧
    (∀ (prev : ℚ) (eff : Option ℚ), (eff = none ∨ ∃ q, eff = some q ∧ 0 ≤ q) →
      0 ≤ compute_daily_moisture s prev eff ∧
        compute_daily_moisture s prev eff ≤ thresholdOf s) ∧
    (∀ (prev : ℚ) (r : DayRec), r.watered = true →
      recomputeStep s prev r = thresholdOf s) ∧
    (∀ (prev : ℚ) (l : List DayRec), ∀ r ∈ recomputeChain s prev l,
      ∃ m, r.moisture = some m ∧ 0 ≤ m ∧ m ≤ thresholdOf s) := by
  refine ⟨?_, fun prev eff heff => compute_daily_moisture_bounds s hthr prev eff heff,
    fun prev r hw => by simp [recomputeStep, hw],
    fun prev l => recomputeChain_bounds s hthr prev l⟩
  simp only [periodOf]
  split_ifs with h
  · norm_num
  · omega

theorem moisture_invariant_witness :
    0 < thresholdOf migSettings ∧
      (0 ≤ compute_daily_moisture migSettings 3 (some 2) ∧
        compute_daily_moisture migSettings 3 (some 2) ≤ thresholdOf migSettings) :=
  ⟨by norm_num [thresholdOf, migSettings],
    (moisture_invariant migSettings (by norm_num [thresholdOf, migSettings])).2.1
      3 (some 2) (Or.inr ⟨2, rfl, by norm_num⟩)⟩

/-- C3: a watered record is reset to exactly the current threshold, both in
the recompute coordinator (`_recompute_from`, lines 197-198) and in the
migration tool (`migrate`, lines 52-53, whose threshold is `10.0`),
regardless of the previous moisture and of the day's effective rainfall. -/
theorem watered_dominance :
    (∀ (s : Settings) (prev : ℚ) (r : DayRec), r.watered = true →
      recomputeStep s prev r = thresholdOf s) ∧
    (∀ (prev : ℚ) (r : DayRec), r.watered = true →
      migrateStep prev r = migThreshold) ∧
    migThreshold = 10 :=
  ⟨fun s prev r hw => by simp [recomputeStep, hw],
    fun prev r hw => by simp [migrateStep, hw], rfl⟩

theorem watered_dominance_witness :
    (⟨RawDate.valid 5, some 0, none, "", true, none⟩ : DayRec).watered = true ∧
      recomputeStep migSettings 3 ⟨RawDate.valid 5, some 0, none, "", true, none⟩ =
        thresholdOf migSettings :=
  ⟨rfl, watered_dominance.1 migSettings 3 ⟨RawDate.valid 5, some 0, none, "", true, none⟩ rfl⟩

/-- C5: the effective-rainfall resolver returns `Rain_mm` when it parses
non-negative, else `BOM_mm` when it parses non-negative, else `None`;
negative or unparseable raw fields are silently treated as absent.  The two
spec scenarios are included: `Rain_mm = ""` / `BOM_mm = "3.2"` resolves to
`3.2`, and `Rain_mm = "abc"` / `BOM_mm = "-1"` resolves to `None`. -/
theorem effective_mm_policy :
    (∀ (r : DayRec) (v : ℚ), r.rain_mm = some v → 0 ≤ v → effective_mm r = some v) ∧
    (∀ (r : DayRec) (v w : ℚ), r.rain_mm = some v → v < 0 →
      r.bom_mm = some w → 0 ≤ w → effective_mm r = some w) ∧
    (∀ (r : DayRec) (w : ℚ), r.rain_mm = none →
      r.bom_mm = some w → 0 ≤ w → effective_mm r = some w) ∧
    (∀ r : DayRec,
      (r.rain_mm = none ∨ ∃ v, r.rain_mm = some v ∧ v < 0) →
      (r.bom_mm = none ∨ ∃ w, r.bom_mm = some w ∧ w < 0) →
      effective_mm r = none) ∧
    (effective_mm ⟨RawDate.valid 738886, none, some (16/5), "", false, none⟩ =
      some (16/5)) ∧
    (effective_mm ⟨RawDate.valid 738886, none, some (-1), "", false, none⟩ = none) := by
  refine ⟨?_, ?_, ?_, ?_, ?_, ?_⟩
  · intro r v hr hv
    simp [effective_mm, hr, hv]
  · intro r v w hr hv hb hw
    simp [effective_mm, hr, hb, hw, not_le.mpr hv]
  · intro r w hr hb hw
    simp [effective_mm, hr, hb, hw]
  · intro r hrain hbom
    rcases hrain with hr | ⟨v, hr, hv⟩ <;>
      rcases hbom with hb | ⟨w, hb, hw⟩ <;>
        simp [effective_mm, hr, hb, not_le.mpr, *]
  · norm_num [effective_mm]
  · norm_num [effective_mm]

theorem effective_mm_policy_witness :
    (⟨RawDate.valid 9, some (7/2), some 1, "", false, none⟩ : DayRec).rain_mm =
        some (7/2) ∧
      (0 : ℚ) ≤ 7/2 ∧
      effective_mm ⟨RawDate.valid 9, some (7/2), some 1, "", false, none⟩ =
        some (7/2) :=
  ⟨rfl, by norm_num,
    effective_mm_policy.1 ⟨RawDate.valid 9, some (7/2), some 1, "", false, none⟩
      (7/2) rfl (by norm_num)⟩

/-- C6: deleting a date leaves every remaining record untouched — the
surviving records are exactly the original records whose date differs from
the deleted one, with their stored `Moisture` values unchanged; no forward
recompute runs after a delete. -/
theorem on_delete_frame :
    ∀ (l : List DayRec) (d : RawDate),
      (on_delete l d).Sublist l ∧
        (∀ r : DayRec, r ∈ on_delete l d ↔ (r ∈ l ∧ r.date ≠ d)) := by
  intro l d
  constructor
  · exact List.filter_sublist l
  · intro r
    simp [on_delete, List.mem_filter]

/-- C9 counterexample: "no error is raised in any case" is false of the
code — a settings file whose content is the valid JSON `5` parses, so the
bare `except` (which guards only `json.load`) does not fire, and the merge
loop's `"data_file" not in loaded` raises an uncaught `TypeError`;
`load_settings` neither returns the defaults nor any merged mapping. -/
theorem load_settings_nonmapping_counterexample :
    load_settings (SettingsSource.parsed (JTop.num 5)) =
        Except.error LoadError.typeError ∧
      load_settings (SettingsSource.parsed (JTop.num 5)) ≠
        Except.ok (JTop.obj defaultSettings) :=
  ⟨rfl, fun h => Except.noConfusion h⟩

/-- C9 (amended): `load_settings` returns the built-in defaults
(`threshold_mm = 10.0`, `period_days = 7`, `data_file = "rain_data.csv"`)
whenever the settings file is missing or its content fails to parse as
JSON, and when the parsed content is a JSON object it returns that mapping
with every missing key filled in from the defaults while keys present keep
their loaded values, raising no error in any of those cases; but content
that parses as JSON without being an object reaches the merge loop
unguarded and raises an uncaught `TypeError` whenever some default key is
not contained in it (always, for numbers, booleans and `null`), the
remaining non-object content being returned unmerged. -/
theorem load_settings_fallback :
    (load_settings SettingsSource.missing = Except.ok (JTop.obj defaultSettings)) ∧
    (load_settings SettingsSource.unparseable =
      Except.ok (JTop.obj defaultSettings)) ∧
    (defaultSettings =
      ⟨some (JVal.str "rain_data.csv"), some (JVal.num 10), some (JVal.num 7)⟩) ∧
    (∀ m : SettingsJson, load_settings (SettingsSource.parsed (JTop.obj m)) =
      Except.ok (JTop.obj (merge_defaults m))) ∧
    (∀ m : SettingsJson, merge_defaults m =
      ⟨some (m.data_file.getD (JVal.str "rain_data.csv")),
        some (m.threshold_mm.getD (JVal.num 10)),
        some (m.period_days.getD (JVal.num 7))⟩) ∧
    (∀ (m : SettingsJson) (v : JVal), m.data_file = some v →
      (merge_defaults m).data_file = some v) ∧
    (∀ (m : SettingsJson) (v : JVal), m.threshold_mm = some v →
      (merge_defaults m).threshold_mm = some v) ∧
    (∀ (m : SettingsJson) (v : JVal), m.period_days = some v →
      (merge_defaults m).period_days = some v) ∧
    (∀ q : ℚ, load_settings (SettingsSource.parsed (JTop.num q)) =
      Except.error LoadError.typeError) ∧
    (∀ b : Bool, load_settings (SettingsSource.parsed (JTop.boolean b)) =
      Except.error LoadError.typeError) ∧
    (load_settings (SettingsSource.parsed JTop.null) =
      Except.error LoadError.typeError) ∧
    (∀ xs : List JVal,
      ¬(JVal.str "data_file" ∈ xs ∧ JVal.str "threshold_mm" ∈ xs ∧
          JVal.str "period_days" ∈ xs) →
      load_settings (SettingsSource.parsed (JTop.arr xs)) =
        Except.error LoadError.typeError) ∧
    (∀ xs : List JVal,
      (JVal.str "data_file" ∈ xs ∧ JVal.str "threshold_mm" ∈ xs ∧
        JVal.str "period_days" ∈ xs) →
      load_settings (SettingsSource.parsed (JTop.arr xs)) =
        Except.ok (JTop.arr xs)) ∧
    (∀ s : String,
      (pyInStr "data_file" s && pyInStr "threshold_mm" s &&
        pyInStr "period_days" s) = false →
      load_settings (SettingsSource.parsed (JTop.str s)) =
        Except.error LoadError.typeError) ∧
    (∀ s : String,
      (pyInStr "data_file" s && pyInStr "threshold_mm" s &&
        pyInStr "period_days" s) = true →
      load_settings (SettingsSource.parsed (JTop.str s)) =
        Except.ok (JTop.str s)) := by
  refine ⟨rfl, rfl, rfl, fun m => rfl, ?_, ?_, ?_, ?_, fun q => rfl, fun b => rfl,
    rfl, ?_, ?_, ?_, ?_⟩
  · rintro ⟨df, th, pd⟩
    cases df <;> cases th <;> cases pd <;> rfl
  · rintro ⟨df, th, pd⟩ v h
    cases h
    cases th <;> cases pd <;> rfl
  · rintro ⟨df, th, pd⟩ v h
    cases h
    cases df <;> cases pd <;> rfl
  · rintro ⟨df, th, pd⟩ v h
    cases h
    cases df <;> cases th <;> rfl
  · intro xs h
    simp only [load_settings]
    rw [if_neg h]
  · intro xs h
    simp only [load_settings]
    rw [if_pos h]
  · intro s h
    simp only [load_settings]
    rw [if_neg]
    simp [h]
  · intro s h
    simp only [load_settings]
    rw [if_pos h]

theorem load_settings_fallback_witness :
    (⟨none, some (JVal.num 25), none⟩ : SettingsJson).threshold_mm =
        some (JVal.num 25) ∧
      (merge_defaults ⟨none, some (JVal.num 25), none⟩).threshold_mm =
        some (JVal.num 25) :=
  ⟨rfl, load_settings_fallback.2.2.2.2.2.2.1 ⟨none, some (JVal.num 25), none⟩
    (JVal.num 25) rfl⟩

/-! ## Gap detector (`_compute_missing_dates`) -/

theorem headD_mem_of_ne_nil {L : List ℕ} (h : L ≠ []) : L.headD 0 ∈ L := by
  cases L with
  | nil => exact absurd rfl h
  | cons a t => simp

theorem headD_le_of_sorted {L : List ℕ} (hs : L.Sorted (· ≤ ·)) {x : ℕ}
    (hx : x ∈ L) : L.headD 0 ≤ x := by
  cases L with
  | nil => cases hx
  | cons a t =>
    rcases List.mem_cons.mp hx with rfl | hx'
    · exact le_refl _
    · exact List.rel_of_sorted_cons hs x hx'

theorem getLastD_mem_of_ne_nil :
    ∀ {L : List ℕ}, L ≠ [] → ∀ d : ℕ, L.getLastD d ∈ L := by
  intro L
  induction L with
  | nil => intro h; exact absurd rfl h
  | cons a t ih =>
    intro _ d
    rw [List.getLastD_cons]
    cases t with
    | nil => simp
    | cons b t' => exact List.mem_cons_of_mem a (ih (by simp) a)

theorem le_getLastD_of_sorted :
    ∀ {L : List ℕ}, L.Sorted (· ≤ ·) → ∀ {x : ℕ}, x ∈ L → ∀ d : ℕ,
      x ≤ L.getLastD d := by
  intro L
  induction L with
  | nil => intro _ x hx; cases hx
  | cons a t ih =>
    intro hs x hx d
    rw [List.getLastD_cons]
    rcases List.mem_cons.mp hx with rfl | hx'
    · cases t with
      | nil => simp
      | cons b t' =>
        have hb : x ≤ b := List.rel_of_sorted_cons hs b (by simp)
        exact le_trans hb (ih hs.of_cons (by simp) x)
    · exact ih hs.of_cons hx' a

/-- Membership in the filtered inclusive range between the head and the last
element of a sorted non-empty list of dates. -/
theorem missing_core {D : List ℕ} (hsort : D.Sorted (· ≤ ·)) (hne : D ≠ [])
    (x : ℕ) :
    x ∈ (List.range' (D.headD 0) (D.getLastD 0 + 1 - D.headD 0)).filter
        (fun y => decide (y ∉ D)) ↔
      (∃ a ∈ D, a < x) ∧ (∃ b ∈ D, x < b) ∧ x ∉ D := by
  have hd0 : D.headD 0 ∈ D := headD_mem_of_ne_nil hne
  have hdN : D.getLastD 0 ∈ D := getLastD_mem_of_ne_nil hne 0
  have hmin : ∀ y ∈ D, D.headD 0 ≤ y := fun y hy => headD_le_of_sorted hsort hy
  have hmax : ∀ y ∈ D, y ≤ D.getLastD 0 :=
    fun y hy => le_getLastD_of_sorted hsort hy 0
  have hds : D.headD 0 ≤ D.getLastD 0 := hmax _ hd0
  rw [List.mem_filter, List.mem_range'_1, decide_eq_true_eq]
  constructor
  · rintro ⟨⟨h1, h2⟩, h3⟩
    have hx0 : D.headD 0 ≠ x := fun h => h3 (h ▸ hd0)
    have hxN : x ≠ D.getLastD 0 := fun h => h3 (h ▸ hdN)
    exact ⟨⟨D.headD 0, hd0, by omega⟩, ⟨D.getLastD 0, hdN, by omega⟩, h3⟩
  · rintro ⟨⟨a, ha, hax⟩, ⟨b, hb, hxb⟩, h3⟩
    have h1 := hmin a ha
    have h2 := hmax b hb
    exact ⟨⟨by omega, by omega⟩, h3⟩

theorem compute_missing_dates_expand (l : List DayRec) (hl : l ≠ [])
    (hd : record_dates l ≠ []) :
    compute_missing_dates l =
      (List.range'
          ((List.insertionSort (· ≤ ·) (record_dates l).dedup).headD 0)
          ((List.insertionSort (· ≤ ·) (record_dates l).dedup).getLastD 0 + 1 -
            (List.insertionSort (· ≤ ·) (record_dates l).dedup).headD 0)).filter
        (fun y =>
          decide (y ∉ List.insertionSort (· ≤ ·) (record_dates l).dedup)) := by
  simp only [compute_missing_dates]
  rw [if_neg hl, if_neg hd]

theorem insertionSort_dedup_ne_nil {l : List DayRec}
    (hd : record_dates l ≠ []) :
    List.insertionSort (· ≤ ·) (record_dates l).dedup ≠ [] := by
  rcases List.exists_mem_of_ne_nil _ hd with ⟨a, ha⟩
  intro h
  have : a ∈ List.insertionSort (· ≤ ·) (record_dates l).dedup := by
    rw [List.mem_insertionSort, List.mem_dedup]
    exact ha
  rw [h] at this
  cases this

theorem mem_compute_missing (l : List DayRec) (x : ℕ) :
    x ∈ compute_missing_dates l ↔
      (∃ a ∈ record_dates l, a < x) ∧ (∃ b ∈ record_dates l, x < b) ∧
        x ∉ record_dates l := by
  by_cases hl : l = []
  · subst hl
    simp [compute_missing_dates, record_dates]
  · by_cases hd : record_dates l = []
    · simp [compute_missing_dates, hl, hd]
    · rw [compute_missing_dates_expand l hl hd,
        missing_core (List.sorted_insertionSort _ _)
          (insertionSort_dedup_ne_nil hd) x]
      simp only [List.mem_insertionSort, List.mem_dedup]

theorem compute_missing_sorted (l : List DayRec) :
    (compute_missing_dates l).Sorted (· < ·) := by
  by_cases hl : l = []
  · subst hl
    simp [compute_missing_dates]
  · by_cases hd : record_dates l = []
    · simp [compute_missing_dates, hl, hd]
    · rw [compute_missing_dates_expand l hl hd]
      exact List.Pairwise.filter _ (List.pairwise_lt_range' _ _)

/-- C8: the gap detector returns exactly the ascending list of calendar
dates strictly between the minimum and maximum parseable recorded dates
that have no record (a date is in the output iff some recorded date lies
below it, some recorded date lies above it, and it is itself unrecorded);
an empty store or a store whose records share a single date yields `[]`;
and the spec example `{2024-01-01, 2024-01-04}` (ordinals 738886, 738889)
yields `{2024-01-02, 2024-01-03}` (ordinals 738887, 738888). -/
theorem gap_detector_correct :
    (∀ l : List DayRec,
      (compute_missing_dates l).Sorted (· < ·) ∧
      (∀ x : ℕ, x ∈ compute_missing_dates l ↔
        (∃ a ∈ record_dates l, a < x) ∧ (∃ b ∈ record_dates l, x < b) ∧
          x ∉ record_dates l) ∧
      (∀ d0 : ℕ, (∀ r ∈ l, r.date = RawDate.valid d0) →
        compute_missing_dates l = [])) ∧
    (compute_missing_dates [] = []) ∧
    (compute_missing_dates
        [⟨RawDate.valid 738886, some 1, none, "", false, none⟩,
          ⟨RawDate.valid 738889, some 2, none, "", false, none⟩] =
      [738887, 738888]) := by
  refine ⟨fun l => ⟨compute_missing_sorted l, fun x => mem_compute_missing l x, ?_⟩,
    rfl, ?_⟩
  · intro d0 hall
    rw [List.eq_nil_iff_forall_not_mem]
    intro x hx
    rcases (mem_compute_missing l x).mp hx with ⟨⟨a, ha, hax⟩, ⟨b, hb, hxb⟩, -⟩
    have hda : a = d0 := by
      rcases List.mem_filterMap.mp ha with ⟨r, hr, hmatch⟩
      rw [hall r hr] at hmatch
      simpa using hmatch.symm
    have hdb : b = d0 := by
      rcases List.mem_filterMap.mp hb with ⟨r, hr, hmatch⟩
      rw [hall r hr] at hmatch
      simpa using hmatch.symm
    omega
  · decide

theorem gap_detector_correct_witness :
    (∀ r ∈ [(⟨RawDate.valid 738886, some 1, none, "", false, none⟩ : DayRec)],
        r.date = RawDate.valid 738886) ∧
      compute_missing_dates
          [(⟨RawDate.valid 738886, some 1, none, "", false, none⟩ : DayRec)] = [] :=
  ⟨by decide, (gap_detector_correct.1 _).2.2 738886 (by decide)⟩

/-! ## Recompute coordinator machinery -/

theorem recomputeStep_moisture_irrel (s : Settings) (prev : ℚ) (r : DayRec)
    (m : Option ℚ) :
    recomputeStep s prev { r with moisture := m } = recomputeStep s prev r := by
  cases r
  rfl

theorem recomputeChain_map_date (s : Settings) :
    ∀ (prev : ℚ) (l : List DayRec),
      (recomputeChain s prev l).map DayRec.date = l.map DayRec.date := by
  intro prev l
  induction l generalizing prev with
  | nil => rfl
  | cons x xs ih => simp [recomputeChain, ih]

theorem recomputeChain_invariant (s : Settings) :
    ∀ (prev : ℚ) (l : List DayRec) (j : ℕ) (r : DayRec),
      (recomputeChain s prev l).get? j = some r →
      r.moisture = some (recomputeStep s
        (if j = 0 then prev
         else (((recomputeChain s prev l).get? (j - 1)).bind DayRec.moisture).getD 0)
        r) := by
  intro prev l
  induction l generalizing prev with
  | nil => intro j r hget; simp [recomputeChain] at hget
  | cons x xs ih =>
    intro j r hget
    have hcons : recomputeChain s prev (x :: xs) =
        { x with moisture := some (recomputeStep s prev x) } ::
          recomputeChain s (recomputeStep s prev x) xs := rfl
    rw [hcons] at hget ⊢
    cases j with
    | zero =>
      rw [List.get?_cons_zero] at hget
      cases hget
      simp [recomputeStep_moisture_irrel]
    | succ j' =>
      rw [List.get?_cons_succ] at hget
      have ihh := ih (recomputeStep s prev x) j' r hget
      cases j' with
      | zero =>
        rw [if_pos rfl] at ihh
        simpa using ihh
      | succ k =>
        rw [if_neg (Nat.succ_ne_zero k)] at ihh
        have hidx : k + 1 + 1 - 1 = k + 1 := rfl
        rw [if_neg (Nat.succ_ne_zero (k + 1)), hidx, List.get?_cons_succ]
        simpa using ihh

theorem recomputeChain_cons (s : Settings) (prev : ℚ) (x : DayRec)
    (xs : List DayRec) :
    recomputeChain s prev (x :: xs) =
      { x with moisture := some (recomputeStep s prev x) } ::
        recomputeChain s (recomputeStep s prev x) xs := rfl

theorem recomputeChain_idem (s : Settings) :
    ∀ (prev : ℚ) (l : List DayRec),
      recomputeChain s prev (recomputeChain s prev l) = recomputeChain s prev l := by
  intro prev l
  induction l generalizing prev with
  | nil => rfl
  | cons x xs ih =>
    rw [recomputeChain_cons s prev x xs, recomputeChain_cons]
    exact congrArg₂ List.cons rfl (ih (recomputeStep s prev x))

theorem findIdx?_congr_date (v : RawDate) :
    ∀ (l1 l2 : List DayRec), l1.map DayRec.date = l2.map DayRec.date →
      ∀ i : ℕ,
        l1.findIdx? (fun r => decide (r.date = v)) i =
          l2.findIdx? (fun r => decide (r.date = v)) i := by
  intro l1
  induction l1 with
  | nil =>
    intro l2 hmap i
    cases l2 with
    | nil => rfl
    | cons y ys => simp at hmap
  | cons x xs ih =>
    intro l2 hmap i
    cases l2 with
    | nil => simp at hmap
    | cons y ys =>
      simp only [List.map_cons, List.cons.injEq] at hmap
      rw [List.findIdx?_cons, List.findIdx?_cons, hmap.1]
      exact if_congr Iff.rfl rfl (ih ys hmap.2 (i + 1))

theorem sorted_recLE_of_map_date {l1 l2 : List DayRec}
    (hmap : l1.map DayRec.date = l2.map DayRec.date)
    (hs : List.Sorted recLE l1) : List.Sorted recLE l2 := by
  have key : ∀ l : List DayRec, l.map dateKey = (l.map DayRec.date).map dateOrd := by
    intro l
    rw [List.map_map]
    rfl
  have h1 : List.Pairwise (fun a b : ℕ => a ≤ b) (l1.map dateKey) :=
    List.pairwise_map.mpr hs
  rw [key, hmap, ← key] at h1
  have h2 := List.pairwise_map.mp h1
  exact h2

theorem sort_records_sorted (l : List DayRec) : List.Sorted recLE (sort_records l) :=
  List.sorted_insertionSort recLE l

theorem sort_records_eq_of_sorted {l : List DayRec} (h : List.Sorted recLE l) :
    sort_records l = l :=
  h.insertionSort_eq

theorem sort_records_perm (l : List DayRec) : List.Perm (sort_records l) l :=
  List.perm_insertionSort recLE l

theorem recompute_from_none (s : Settings) (D : ℕ) (l : List DayRec)
    (h : (sort_records l).findIdx? (fun r => decide (r.date = RawDate.valid D)) = none) :
    recompute_from s D l = sort_records l := by
  simp only [recompute_from, h]

theorem recompute_from_some (s : Settings) (D : ℕ) (l : List DayRec) (i : ℕ)
    (h : (sort_records l).findIdx? (fun r => decide (r.date = RawDate.valid D)) = some i) :
    recompute_from s D l =
      (sort_records l).take i ++
        recomputeChain s
          (if i = 0 then 0
           else ((((sort_records l).get? (i - 1)).bind DayRec.moisture).getD 0))
          ((sort_records l).drop i) := by
  simp only [recompute_from, h]

theorem recompute_from_map_date (s : Settings) (D : ℕ) (l : List DayRec) :
    (recompute_from s D l).map DayRec.date = (sort_records l).map DayRec.date := by
  cases h : (sort_records l).findIdx? (fun r => decide (r.date = RawDate.valid D)) with
  | none => rw [recompute_from_none s D l h]
  | some i =>
    rw [recompute_from_some s D l i h, List.map_append, recomputeChain_map_date,
      ← List.map_append, List.take_append_drop]

theorem recompute_prefix (s : Settings) (D : ℕ) (l : List DayRec) (i : ℕ)
    (h : (sort_records l).findIdx? (fun r => decide (r.date = RawDate.valid D)) = some i)
    (j : ℕ) (hj : j < i) :
    (recompute_from s D l).get? j = (sort_records l).get? j := by
  rcases List.findIdx?_eq_some_iff_getElem.mp h with ⟨hi, -, -⟩
  have hlen : ((sort_records l).take i).length = i := by
    rw [List.length_take]
    omega
  rw [recompute_from_some s D l i h,
    List.get?_append (show j < ((sort_records l).take i).length by omega),
    List.get?_take hj]

theorem recompute_invariant_at (s : Settings) (D : ℕ) (l : List DayRec) (i : ℕ)
    (h : (sort_records l).findIdx? (fun r => decide (r.date = RawDate.valid D)) = some i)
    (j : ℕ) (r : DayRec) (hij : i ≤ j)
    (hget : (recompute_from s D l).get? j = some r) :
    r.moisture = some (recomputeStep s
      (if j = 0 then 0
       else (((recompute_from s D l).get? (j - 1)).bind DayRec.moisture).getD 0) r) := by
  rcases List.findIdx?_eq_some_iff_getElem.mp h with ⟨hi, -, -⟩
  have hlen : ((sort_records l).take i).length = i := by
    rw [List.length_take]
    omega
  have hres := recompute_from_some s D l i h
  rw [hres, List.get?_append_right (show ((sort_records l).take i).length ≤ j by omega),
    hlen] at hget
  have hinv := recomputeChain_invariant s _ _ (j - i) r hget
  rw [hres]
  rcases Nat.eq_or_lt_of_le hij with heq | hlt
  · subst heq
    by_cases hi0 : i = 0
    · subst hi0
      rw [if_pos rfl]
      rw [Nat.sub_self, if_pos rfl, if_pos rfl] at hinv
      exact hinv
    · rw [if_neg hi0,
        List.get?_append (show i - 1 < ((sort_records l).take i).length by omega),
        List.get?_take (show i - 1 < i by omega)]
      rw [Nat.sub_self, if_pos rfl, if_neg hi0] at hinv
      exact hinv
  · have hj0 : j ≠ 0 := by omega
    have hji : j - i ≠ 0 := by omega
    rw [if_neg hj0,
      List.get?_append_right (show ((sort_records l).take i).length ≤ j - 1 by omega),
      hlen, (show j - 1 - i = j - i - 1 by omega)]
    rw [if_neg hji] at hinv
    exact hinv

theorem recompute_before_unchanged (s : Settings) (D : ℕ) (l : List DayRec) (i : ℕ)
    (h : (sort_records l).findIdx? (fun r => decide (r.date = RawDate.valid D)) = some i)
    (j : ℕ) (r : DayRec) (d' : ℕ)
    (hget : (recompute_from s D l).get? j = some r)
    (hrd : r.date = RawDate.valid d') (hd' : d' < D) :
    (recompute_from s D l).get? j = (sort_records l).get? j := by
  rcases List.findIdx?_eq_some_iff_getElem.mp h with ⟨hi, hpi, -⟩
  have hDi : ((sort_records l).get ⟨i, hi⟩).date = RawDate.valid D :=
    of_decide_eq_true hpi
  refine recompute_prefix s D l i h j ?_
  by_contra hji
  push_neg at hji
  have hmap := recompute_from_map_date s D l
  rcases List.get?_eq_some.mp hget with ⟨hjlen, -⟩
  have hlen_eq : (recompute_from s D l).length = (sort_records l).length := by
    have := congrArg List.length hmap
    simpa using this
  have hj2 : j < (sort_records l).length := by omega
  have hdj : ((sort_records l).get ⟨j, hj2⟩).date = RawDate.valid d' := by
    have h1 : ((recompute_from s D l).map DayRec.date).get? j = some r.date := by
      rw [List.get?_map, hget]
      rfl
    rw [hmap, List.get?_map, List.get?_eq_get hj2] at h1
    have h2 : ((sort_records l).get ⟨j, hj2⟩).date = r.date :=
      Option.some_inj.mp h1
    rw [h2, hrd]
  have hs := sort_records_sorted l
  rcases Nat.eq_or_lt_of_le hji with heq | hlt
  · subst heq
    have hvd : RawDate.valid D = RawDate.valid d' := by
      rw [← hDi]
      exact hdj
    injection hvd with hDd
    omega
  · have hrel : recLE ((sort_records l).get ⟨i, hi⟩) ((sort_records l).get ⟨j, hj2⟩) :=
      hs.rel_get_of_lt (show (⟨i, hi⟩ : Fin (sort_records l).length) < ⟨j, hj2⟩ from hlt)
    have : dateOrd ((sort_records l).get ⟨i, hi⟩).date ≤
        dateOrd ((sort_records l).get ⟨j, hj2⟩).date := hrel
    rw [hDi, hdj] at this
    simp only [dateOrd] at this
    omega

/-- C2: after `_recompute_from(D)` returns on a store containing a record
dated `D` (found at position `i` of the date-sorted store), the records
before position `i` are untouched, every record at or after position `i`
stores the moisture computed by the engine step from the stored moisture of
the immediately preceding record (`0` when there is none) together with its
own effective rainfall and watered flag under the current settings, and
every record dated strictly before `D` is unchanged. -/
theorem recompute_from_contract (s : Settings) (D : ℕ) (l : List DayRec) (i : ℕ)
    (h : (sort_records l).findIdx? (fun r => decide (r.date = RawDate.valid D)) = some i) :
    (∀ j, j < i → (recompute_from s D l).get? j = (sort_records l).get? j) ∧
    (∀ (j : ℕ) (r : DayRec), i ≤ j → (recompute_from s D l).get? j = some r →
      r.moisture = some (recomputeStep s
        (if j = 0 then 0
         else (((recompute_from s D l).get? (j - 1)).bind DayRec.moisture).getD 0) r)) ∧
    (∀ (j : ℕ) (r : DayRec) (d' : ℕ), (recompute_from s D l).get? j = some r →
      r.date = RawDate.valid d' → d' < D →
      (recompute_from s D l).get? j = (sort_records l).get? j) :=
  ⟨fun j hj => recompute_prefix s D l i h j hj,
    fun j r hij hget => recompute_invariant_at s D l i h j r hij hget,
    fun j r d' hget hrd hd' => recompute_before_unchanged s D l i h j r d' hget hrd hd'⟩

theorem recompute_from_contract_witness :
    ((sort_records
        [⟨RawDate.valid 5, some 2, none, "", false, some 2⟩,
          ⟨RawDate.valid 6, some 0, none, "", false, none⟩]).findIdx?
        (fun r => decide (r.date = RawDate.valid 6)) = some 1) ∧
    ((∀ j, j < 1 →
        (recompute_from migSettings 6
          [⟨RawDate.valid 5, some 2, none, "", false, some 2⟩,
            ⟨RawDate.valid 6, some 0, none, "", false, none⟩]).get? j =
        (sort_records
          [⟨RawDate.valid 5, some 2, none, "", false, some 2⟩,
            ⟨RawDate.valid 6, some 0, none, "", false, none⟩]).get? j) ∧
      (∀ (j : ℕ) (r : DayRec), 1 ≤ j →
        (recompute_from migSettings 6
          [⟨RawDate.valid 5, some 2, none, "", false, some 2⟩,
            ⟨RawDate.valid 6, some 0, none, "", false, none⟩]).get? j = some r →
        r.moisture = some (recomputeStep migSettings
          (if j = 0 then 0
           else (((recompute_from migSettings 6
              [⟨RawDate.valid 5, some 2, none, "", false, some 2⟩,
                ⟨RawDate.valid 6, some 0, none, "", false, none⟩]).get? (j - 1)).bind
              DayRec.moisture).getD 0) r)) ∧
      (∀ (j : ℕ) (r : DayRec) (d' : ℕ),
        (recompute_from migSettings 6
          [⟨RawDate.valid 5, some 2, none, "", false, some 2⟩,
            ⟨RawDate.valid 6, some 0, none, "", false, none⟩]).get? j = some r →
        r.date = RawDate.valid d' → d' < 6 →
        (recompute_from migSettings 6
          [⟨RawDate.valid 5, some 2, none, "", false, some 2⟩,
            ⟨RawDate.valid 6, some 0, none, "", false, none⟩]).get? j =
        (sort_records
          [⟨RawDate.valid 5, some 2, none, "", false, some 2⟩,
            ⟨RawDate.valid 6, some 0, none, "", false, none⟩]).get? j)) :=
  ⟨by decide,
    recompute_from_contract migSettings 6
      [⟨RawDate.valid 5, some 2, none, "", false, some 2⟩,
        ⟨RawDate.valid 6, some 0, none, "", false, none⟩] 1 (by decide)⟩

/-- C4: running `_recompute_from` twice in succession from the same start
date leaves every record (in particular every stored `Moisture` value)
identical to running it once, for every store and start date. -/
theorem recompute_from_idem (s : Settings) (D : ℕ) (l : List DayRec) :
    recompute_from s D (recompute_from s D l) = recompute_from s D l := by
  cases h : (sort_records l).findIdx? (fun r => decide (r.date = RawDate.valid D)) with
  | none =>
    have h1 := recompute_from_none s D l h
    have hss : sort_records (sort_records l) = sort_records l :=
      sort_records_eq_of_sorted (sort_records_sorted l)
    rw [h1, recompute_from_none s D (sort_records l) (by rw [hss]; exact h), hss]
  | some i =>
    have hres := recompute_from_some s D l i h
    rcases List.findIdx?_eq_some_iff_getElem.mp h with ⟨hi, -, -⟩
    have hlen : ((sort_records l).take i).length = i := by
      rw [List.length_take]
      omega
    have hmap := recompute_from_map_date s D l
    have hsorted2 : List.Sorted recLE (recompute_from s D l) :=
      sorted_recLE_of_map_date hmap.symm (sort_records_sorted l)
    have hss : sort_records (recompute_from s D l) = recompute_from s D l :=
      sort_records_eq_of_sorted hsorted2
    have hfind : (recompute_from s D l).findIdx?
        (fun r => decide (r.date = RawDate.valid D)) = some i := by
      rw [findIdx?_congr_date (RawDate.valid D) (recompute_from s D l)
        (sort_records l) hmap 0]
      exact h
    have hres2 := recompute_from_some s D (recompute_from s D l) i
      (by rw [hss]; exact hfind)
    rw [hres2, hss, hres, List.take_left' hlen, List.drop_left' hlen]
    congr 1
    by_cases hi0 : i = 0
    · subst hi0
      simp only [if_pos rfl]
      exact recomputeChain_idem s 0 _
    · simp only [if_neg hi0]
      rw [List.get?_append (show i - 1 < ((sort_records l).take i).length by omega),
        List.get?_take (show i - 1 < i by omega)]
      exact recomputeChain_idem s _ _

/-! ## Migration tool refinement -/

theorem migEffective_eq_getD (r : DayRec) :
    migEffective_mm r = (effective_mm r).getD 0 := by
  rcases hr : r.rain_mm with _ | q
  · rcases hb : r.bom_mm with _ | w
    · simp [migEffective_mm, effective_mm, hr, hb]
    · simp only [migEffective_mm, effective_mm, hr, hb]
      split_ifs with hw
      · rfl
      · rfl
  · simp only [migEffective_mm, effective_mm, hr]
    split_ifs with hv
    · rfl
    · rcases hb : r.bom_mm with _ | w
      · simp [hb]
      · simp only [hb]
        split_ifs with hw
        · rfl
        · rfl

theorem migStep_eq_recomputeStep (prev : ℚ) (r : DayRec) :
    migrateStep prev r = recomputeStep migSettings prev r := by
  have hthr : thresholdOf migSettings = migThreshold := rfl
  have hdec : decayOf migSettings = migDecay := by
    norm_num [decayOf, thresholdOf, periodOf, migSettings, migDecay,
      migThreshold, migPeriodDays]
  simp only [migrateStep, recomputeStep, compute_daily_moisture, hthr, hdec,
    migEffective_eq_getD]

theorem migrateGo_eq_chain :
    ∀ (prev : ℚ) (l : List DayRec), (∀ r ∈ l, r.date ≠ RawDate.invalid) →
      migrateGo prev l = some (recomputeChain migSettings prev l) := by
  intro prev l
  induction l generalizing prev with
  | nil => intro _; rfl
  | cons x xs ih =>
    intro hdates
    have hx : x.date ≠ RawDate.invalid := hdates x (by simp)
    rcases hd : x.date with d | _
    · simp only [migrateGo, hd]
      rw [ih _ (fun r hr => hdates r (List.mem_cons_of_mem x hr))]
      rw [recomputeChain_cons, migStep_eq_recomputeStep]
      simp [hd]
    · exact absurd hd hx

/-- On an already date-sorted record list whose dates all parse, the
migration pass equals the recompute coordinator started at the head. -/
theorem migrate_sorted_eq_recompute (l : List DayRec) (d0 : ℕ) (r0 : DayRec)
    (rs : List DayRec) (hsorted : List.Sorted recLE l)
    (hdates : ∀ r ∈ l, r.date ≠ RawDate.invalid)
    (hl : l = r0 :: rs) (hd0 : r0.date = RawDate.valid d0) :
    migrate l = some (recompute_from migSettings d0 l) := by
  subst hl
  have hss : sort_records (r0 :: rs) = r0 :: rs :=
    sort_records_eq_of_sorted hsorted
  have hfind : (sort_records (r0 :: rs)).findIdx?
      (fun r => decide (r.date = RawDate.valid d0)) = some 0 := by
    rw [hss, List.findIdx?_cons, hd0]
    simp
  have hres := recompute_from_some migSettings d0 (r0 :: rs) 0 hfind
  rw [hres, hss]
  simp only [List.take_zero, List.drop_zero, List.nil_append, if_pos rfl]
  exact migrateGo_eq_chain 0 (r0 :: rs) hdates

/-- `_recompute_from` sorts its store first, so feeding it a pre-sorted copy
changes nothing. -/
theorem recompute_from_sort_arg (s : Settings) (D : ℕ) (l : List DayRec) :
    recompute_from s D (sort_records l) = recompute_from s D l := by
  simp only [recompute_from, sort_records_eq_of_sorted (sort_records_sorted l)]

/-- C7: for every record list whose dates all parse, the migration tool
(hard-coded `THRESHOLD = 10.0`, `PERIOD_DAYS = 7`), run on the date-sorted
list its loader produces, computes exactly the records `_recompute_from`
started at the earliest record with previous moisture `0` would store under
settings `threshold_mm = 10.0`, `period_days = 7` — a full cold recompute;
in particular every record is assigned the same `Moisture` value and hence
the same formatted `Moisture` string. -/
theorem migrate_equiv_recompute (l : List DayRec) (d0 : ℕ) (r0 : DayRec)
    (hdates : ∀ r ∈ l, r.date ≠ RawDate.invalid)
    (hhead : (sort_records l).head? = some r0)
    (hd0 : r0.date = RawDate.valid d0) :
    migrate (sort_records l) = some (recompute_from migSettings d0 l) := by
  rcases hsl : sort_records l with _ | ⟨x, xs⟩
  · rw [hsl] at hhead
    simp at hhead
  · rw [hsl] at hhead
    have hx : x = r0 := by simpa using hhead
    subst hx
    rw [← recompute_from_sort_arg migSettings d0 l, hsl]
    refine migrate_sorted_eq_recompute (x :: xs) d0 x xs ?_ ?_ rfl hd0
    · rw [← hsl]
      exact sort_records_sorted l
    · intro r hr
      refine hdates r ?_
      have hrs : r ∈ sort_records l := by
        rw [hsl]
        exact hr
      exact (sort_records_perm l).mem_iff.mp hrs

theorem migrate_equiv_recompute_witness :
    (∀ r ∈ [(⟨RawDate.valid 6, none, some 1, "", true, none⟩ : DayRec),
        ⟨RawDate.valid 5, some 3, none, "", false, none⟩],
      r.date ≠ RawDate.invalid) ∧
      ((sort_records
          [(⟨RawDate.valid 6, none, some 1, "", true, none⟩ : DayRec),
            ⟨RawDate.valid 5, some 3, none, "", false, none⟩]).head? =
        some ⟨RawDate.valid 5, some 3, none, "", false, none⟩) ∧
      (⟨RawDate.valid 5, some 3, none, "", false, none⟩ : DayRec).date =
        RawDate.valid 5 ∧
      migrate (sort_records
          [(⟨RawDate.valid 6, none, some 1, "", true, none⟩ : DayRec),
            ⟨RawDate.valid 5, some 3, none, "", false, none⟩]) =
        some (recompute_from migSettings 5
          [(⟨RawDate.valid 6, none, some 1, "", true, none⟩ : DayRec),
            ⟨RawDate.valid 5, some 3, none, "", false, none⟩]) :=
  ⟨by decide, by decide, rfl,
    migrate_equiv_recompute
      [(⟨RawDate.valid 6, none, some 1, "", true, none⟩ : DayRec),
        ⟨RawDate.valid 5, some 3, none, "", false, none⟩] 5
      ⟨RawDate.valid 5, some 3, none, "", false, none⟩
      (by decide) (by decide) rfl⟩

/-! ## Add/update handler -/

theorem sort_records_recompute (s : Settings) (D : ℕ) (l : List DayRec) :
    sort_records (recompute_from s D l) = recompute_from s D l :=
  sort_records_eq_of_sorted (sorted_recLE_of_map_date
    (recompute_from_map_date s D l).symm (sort_records_sorted l))

theorem upsert_mem (l : List DayRec) (n : DayRec) : n ∈ upsert l n := by
  induction l with
  | nil => simp [upsert]
  | cons r rs ih =>
    simp only [upsert]
    split_ifs with h
    · simp
    · simp [ih]

theorem upsert_unique (l : List DayRec) (n : DayRec)
    (hnd : l.Pairwise (fun a b => a.date ≠ b.date)) :
    ∀ x ∈ upsert l n, x.date = n.date → x = n := by
  induction l with
  | nil =>
    intro x hx _
    simpa [upsert] using hx
  | cons r rs ih =>
    intro x hx hxd
    simp only [upsert] at hx
    by_cases h : r.date = n.date
    · rw [if_pos h] at hx
      rcases List.mem_cons.mp hx with rfl | hx'
      · rfl
      · exact absurd (h.trans hxd.symm) ((List.pairwise_cons.mp hnd).1 x hx')
    · rw [if_neg h] at hx
      rcases List.mem_cons.mp hx with rfl | hx'
      · exact absurd hxd h
      · exact ih (List.pairwise_cons.mp hnd).2 x hx' hxd

/-- C10: an add/update submission whose `Rain_mm` parses negative while
`BOM_mm` parses non-negative passes validation, and after the operation
returns, the stored `Moisture` for the submitted date is the one computed
per the resolver policy from the `BOM_mm` value (with the previous stored
moisture of the record just before it in the final store): the forward
recompute at the end of the operation overwrites the handler's inline
effective-rainfall pick, which had used the negative `Rain_mm` value. -/
theorem add_update_resolver_override (s : Settings) (today d : ℕ)
    (l : List DayRec) (q p : ℚ) (nts : String) (hq : q < 0) (hp : 0 ≤ p)
    (hd : d ≤ today) (hnd : l.Pairwise (fun a b => a.date ≠ b.date)) :
    ∃ (l' : List DayRec) (i : ℕ) (r : DayRec),
      on_add_update s today l d (some q) (some p) nts false = some l' ∧
      l'.findIdx? (fun x => decide (x.date = RawDate.valid d)) = some i ∧
      l'.get? i = some r ∧
      r.moisture = some (compute_daily_moisture s
        (if i = 0 then 0 else ((l'.get? (i - 1)).bind DayRec.moisture).getD 0)
        (some p)) := by
  set NR : DayRec := ⟨RawDate.valid d, some q, some p, nts, false,
    some (compute_daily_moisture s
      (((l.find? (fun x => decide (x.date = RawDate.valid (d - 1)))).bind
        DayRec.moisture).getD 0) (some q))⟩ with hNR
  have h1 : ¬ today < d := not_lt.mpr hd
  have h2 : decide (0 ≤ q) = false := decide_eq_false (not_le.mpr hq)
  have h3 : decide (0 ≤ p) = true := decide_eq_true hp
  have hrun : on_add_update s today l d (some q) (some p) nts false =
      some (recompute_from s d (upsert l NR)) := by
    rw [hNR]
    simp [on_add_update, h1, h2, h3, sort_records_recompute]
  have hmem : NR ∈ upsert l NR := upsert_mem l NR
  have hmem2 : NR ∈ sort_records (upsert l NR) :=
    (sort_records_perm (upsert l NR)).mem_iff.mpr hmem
  have hpNR : (fun x : DayRec => decide (x.date = RawDate.valid d)) NR = true := by
    simp [hNR]
  obtain ⟨i, hfind0⟩ : ∃ i, (sort_records (upsert l NR)).findIdx?
      (fun x => decide (x.date = RawDate.valid d)) = some i :=
    ⟨_, List.findIdx?_eq_some_of_exists ⟨NR, hmem2, hpNR⟩⟩
  rcases List.findIdx?_eq_some_iff_getElem.mp hfind0 with ⟨hilt, hpi, -⟩
  have hNi : (sort_records (upsert l NR))[i] = NR := by
    refine upsert_unique l NR hnd _
      ((sort_records_perm (upsert l NR)).mem_iff.mp (List.getElem_mem hilt)) ?_
    rw [of_decide_eq_true hpi]
  have hres := recompute_from_some s d (upsert l NR) i hfind0
  have hlen : ((sort_records (upsert l NR)).take i).length = i := by
    rw [List.length_take]
    omega
  have hdrop : (sort_records (upsert l NR)).drop i =
      NR :: (sort_records (upsert l NR)).drop (i + 1) := by
    rw [List.drop_eq_getElem_cons hilt, hNi]
  have hget : (recompute_from s d (upsert l NR)).get? i =
      some { NR with moisture := some (recomputeStep s
        (if i = 0 then 0
         else ((((sort_records (upsert l NR)).get? (i - 1)).bind
           DayRec.moisture).getD 0)) NR) } := by
    rw [hres, List.get?_append_right (by omega), hlen, Nat.sub_self, hdrop,
      recomputeChain_cons]
    rfl
  have hfindres : (recompute_from s d (upsert l NR)).findIdx?
      (fun x => decide (x.date = RawDate.valid d)) = some i := by
    rw [findIdx?_congr_date (RawDate.valid d) (recompute_from s d (upsert l NR))
      (sort_records (upsert l NR)) (recompute_from_map_date s d (upsert l NR)) 0]
    exact hfind0
  have hw : NR.watered = false := rfl
  have heff : effective_mm NR = some p := by
    rw [hNR]
    simp [effective_mm, not_le.mpr hq, hp]
  have hstepNR : ∀ prev : ℚ, recomputeStep s prev NR =
      compute_daily_moisture s prev (some p) := by
    intro prev
    simp [recomputeStep, hw, heff]
  have hprev_eq : (if i = 0 then (0:ℚ)
      else ((((sort_records (upsert l NR)).get? (i - 1)).bind
        DayRec.moisture).getD 0)) =
      (if i = 0 then (0:ℚ)
       else (((recompute_from s d (upsert l NR)).get? (i - 1)).bind
         DayRec.moisture).getD 0) := by
    by_cases hi0 : i = 0
    · rw [if_pos hi0, if_pos hi0]
    · rw [if_neg hi0, if_neg hi0,
        recompute_prefix s d (upsert l NR) i hfind0 (i - 1) (by omega)]
  refine ⟨recompute_from s d (upsert l NR), i,
    { NR with moisture := some (recomputeStep s
      (if i = 0 then 0
       else ((((sort_records (upsert l NR)).get? (i - 1)).bind
         DayRec.moisture).getD 0)) NR) }, hrun, hfindres, hget, ?_⟩
  show some (recomputeStep s
      (if i = 0 then 0
       else ((((sort_records (upsert l NR)).get? (i - 1)).bind
         DayRec.moisture).getD 0)) NR) =
    some (compute_daily_moisture s
      (if i = 0 then 0
       else (((recompute_from s d (upsert l NR)).get? (i - 1)).bind
         DayRec.moisture).getD 0) (some p))
  rw [hstepNR, hprev_eq]

theorem add_update_resolver_override_witness :
    (-1 : ℚ) < 0 ∧ (0 : ℚ) ≤ 2 ∧ (3 : ℕ) ≤ 10 ∧
      List.Pairwise (fun a b : DayRec => a.date ≠ b.date) [] ∧
      (∃ (l' : List DayRec) (i : ℕ) (r : DayRec),
        on_add_update migSettings 10 [] 3 (some (-1)) (some 2) "" false = some l' ∧
        l'.findIdx? (fun x => decide (x.date = RawDate.valid 3)) = some i ∧
        l'.get? i = some r ∧
        r.moisture = some (compute_daily_moisture migSettings
          (if i = 0 then 0 else ((l'.get? (i - 1)).bind DayRec.moisture).getD 0)
          (some 2))) :=
  ⟨by norm_num, by norm_num, by norm_num, List.Pairwise.nil,
    add_update_resolver_override migSettings 10 3 [] (-1) 2 "" (by norm_num)
      (by norm_num) (by norm_num) List.Pairwise.nil⟩
